import Mathlib

/-!
Verification development for the chatgpt-chat-exporter repository.

The repository consists of three browser scripts (`exporter-markdown.js`,
`exporter-html.js`, and an unnamed async markdown exporter, here called the
"async" variant) that convert a rendered chat page into Markdown or HTML.
Strings are modelled as `List Char` (JavaScript strings over the characters
that occur in this code base); DOM subtrees are modelled by the `Node`
inductive below, matching the spec's Node Adapter (tag names are stored
lowercased, as `tagName.toLowerCase()` produces them).  JavaScript regular
expression operations used by the source are translated into explicit
recursive functions; each translation notes the regex it models.
-/

/-- Whitespace class used by JavaScript `trim()` and the regex class `\s`
(restricted to the ASCII whitespace characters that can occur here). -/
def isWS (c : Char) : Bool :=
  c = ' ' || c = '\t' || c = '\n' || c = '\r' || c = '\x0b' || c = '\x0c'

/-- Horizontal whitespace, the regex class `[ \t]`. -/
def isHWS (c : Char) : Bool :=
  c = ' ' || c = '\t'

/-- `pat` is a prefix of the second list (JavaScript `String.startsWith`). -/
def startsWith : List Char → List Char → Bool
  | [], _ => true
  | _ :: _, [] => false
  | p :: ps, c :: cs => p == c && startsWith ps cs

/-- Substring test (JavaScript `String.includes`). -/
def containsSub (pat : List Char) : List Char → Bool
  | [] => startsWith pat []
  | c :: cs => startsWith pat (c :: cs) || containsSub pat cs

/-- JavaScript `String.replace` with a global literal pattern: scans left to
right, replacing non-overlapping occurrences of `pat` by `rep`.  The `Nat`
argument counts pattern characters still to be skipped after a match. -/
def replaceAllGo (pat rep : List Char) : Nat → List Char → List Char
  | _, [] => []
  | Nat.succ skipn, _ :: cs => replaceAllGo pat rep skipn cs
  | 0, c :: cs =>
    if startsWith pat (c :: cs) then rep ++ replaceAllGo pat rep (pat.length - 1) cs
    else c :: replaceAllGo pat rep 0 cs

/-- `s.replace(/pat/g, rep)` for a literal pattern `pat`. -/
def replaceAll (pat rep s : List Char) : List Char :=
  replaceAllGo pat rep 0 s

/-- JavaScript `String.trimStart`. -/
def trimLeft (s : List Char) : List Char := s.dropWhile isWS

/-- JavaScript `String.trimEnd`. -/
def trimEnd (s : List Char) : List Char := (s.reverse.dropWhile isWS).reverse

/-- JavaScript `String.trim`. -/
def jsTrim (s : List Char) : List Char := trimEnd (trimLeft s)

/-- Worker for `collapseNewlines`; the `Nat` argument is the number of
newlines emitted immediately before the current position. -/
def collapseNLGo : Nat → List Char → List Char
  | _, [] => []
  | run, c :: cs =>
    if c = '\n' then
      if run ≥ 2 then collapseNLGo run cs else c :: collapseNLGo (run + 1) cs
    else c :: collapseNLGo 0 cs

/-- Models `.replace(/\n{3,}/g, "\n\n")`: every maximal run of three or more
newlines becomes exactly two, shorter runs are unchanged; equivalently, every
newline already preceded by two consecutive newlines is dropped. -/
def collapseNewlines (s : List Char) : List Char := collapseNLGo 0 s

/-- Worker for `collapseWS`; the Bool records whether the previous input
character was whitespace (i.e. we are inside a run already replaced). -/
def collapseWSGo : Bool → List Char → List Char
  | _, [] => []
  | prevWS, c :: cs =>
    if isWS c then
      if prevWS then collapseWSGo true cs else ' ' :: collapseWSGo true cs
    else c :: collapseWSGo false cs

/-- Models `.replace(/\s+/g, " ")`: each maximal whitespace run becomes one
space. -/
def collapseWS (s : List Char) : List Char := collapseWSGo false s

/-- Worker for `nlRunsToSpace`. -/
def nlRunsGo : Bool → List Char → List Char
  | _, [] => []
  | prevNL, c :: cs =>
    if c = '\n' then
      if prevNL then nlRunsGo true cs else ' ' :: nlRunsGo true cs
    else c :: nlRunsGo false cs

/-- Models `.replace(/\n+/g, " ")`: each maximal newline run becomes one
space (used by `getTextContent`). -/
def nlRunsToSpace (s : List Char) : List Char := nlRunsGo false s

/-- Models `.replace(/\n/g, " ")`: every newline becomes one space. -/
def nlEachToSpace (s : List Char) : List Char :=
  s.map (fun c => if c = '\n' then ' ' else c)

/-- One line of `.replace(/^[ \t]+(?!```)/gm, "")`.  The regex engine
backtracks on the greedy `[ \t]+` against the negative lookahead: if the
leading whitespace run is directly followed by three backticks the last
whitespace character is kept (a run of length one is left whole), otherwise
the whole run is removed. -/
def stripLine (line : List Char) : List Char :=
  let ws := line.takeWhile isHWS
  let rest := line.dropWhile isHWS
  if ws = [] then line
  else if startsWith [ '`', '`', '`' ] rest then
    if ws.length = 1 then line else ws.drop (ws.length - 1) ++ rest
  else rest

/-- Models `.replace(/^[ \t]+(?!```)/gm, "")` over the whole string: the
`m` flag anchors `^` at every line start, so the transformation acts on each
newline-separated line independently. -/
def stripLeadingWS (s : List Char) : List Char :=
  [ '\n' ].intercalate ((s.splitOn '\n').map stripLine)

/-- `cleanMarkdown` from `exporter-markdown.js` (identical in the async
variant): collapse newline runs, un-escape five HTML entities, strip leading
horizontal whitespace from lines (preserving code-fence lines), trim. -/
def cleanMarkdown (text : List Char) : List Char :=
  jsTrim (stripLeadingWS
    (replaceAll ( "&quot;".toList) ( "\"".toList)
      (replaceAll ( "&nbsp;".toList) ( " ".toList)
        (replaceAll ( "&amp;".toList) ( "&".toList)
          (replaceAll ( "&gt;".toList) ( ">".toList)
            (replaceAll ( "&lt;".toList) ( "<".toList)
              (collapseNewlines text)))))))

/-- `escapeMarkdownText`: escape backslash, then `[`, then `]`. -/
def escapeMarkdownText (text : List Char) : List Char :=
  replaceAll ( "]".toList) ( "\\]".toList)
    (replaceAll ( "[".toList) ( "\\[".toList)
      (replaceAll ( "\\".toList) ( "\\\\".toList) text))

/-- ASCII decimal digit test. -/
def isDigitCh (c : Char) : Bool := '0' ≤ c && c ≤ '9'

/-- Parse a nonempty maximal digit prefix; `none` if the first character is
not a digit. -/
def parseDigits (s : List Char) : Option Nat :=
  let ds := s.takeWhile isDigitCh
  if ds = [] then none
  else some (ds.foldl (fun acc c => 10 * acc + (c.toNat - 48)) 0)

/-- JavaScript `parseInt(s, 10)`: skip leading whitespace, optional sign,
then a maximal digit run; `none` models `NaN`. -/
def parseIntJS (s : List Char) : Option Int :=
  match s.dropWhile isWS with
  | '-' :: rest => (parseDigits rest).map (fun n => -(n : Int))
  | '+' :: rest => (parseDigits rest).map (fun n => (n : Int))
  | rest => (parseDigits rest).map (fun n => (n : Int))

/-- Decimal digits of a natural number, accumulator-based with fuel. -/
def natToCharsGo : Nat → Nat → List Char → List Char
  | 0, _, acc => acc
  | fuel + 1, n, acc =>
    let d := Char.ofNat (48 + n % 10)
    if n < 10 then d :: acc else natToCharsGo fuel (n / 10) (d :: acc)

/-- Decimal rendering of a natural number. -/
def natToChars (n : Nat) : List Char := natToCharsGo (n + 1) n []

/-- Decimal rendering of an integer (JavaScript number-to-string for
integral values). -/
def intToChars (i : Int) : List Char :=
  if i < 0 then '-' :: natToChars i.natAbs else natToChars i.natAbs

/-- Rendering of the possibly-NaN list counter in a template literal. -/
def numToChars : Option Int → List Char
  | some i => intToChars i
  | none => "NaN".toList

/-- `itemNum++` on the possibly-NaN counter. -/
def incNum : Option Int → Option Int
  | some i => some (i + 1)
  | none => none

/-- ASCII lowercase conversion of one character (JavaScript `toLowerCase`
restricted to ASCII, which is all the compared strings use). -/
def lowerChar (c : Char) : Char :=
  if 'A' ≤ c && c ≤ 'Z' then Char.ofNat (c.toNat + 32) else c

/-- JavaScript `String.toLowerCase` (ASCII). -/
def lowerChars (s : List Char) : List Char := s.map lowerChar

/-- The duplicate-detection fingerprint shared by all three exporters:
`x.substring(0, 100).replace(/\s+/g, " ").trim()`. -/
def fingerprint (s : List Char) : List Char := jsTrim (collapseWS (s.take 100))

/-- Alphanumeric test, the regex class `[a-zA-Z0-9]`. -/
def isAlnum (c : Char) : Bool :=
  ('a' ≤ c && c ≤ 'z') || ('A' ≤ c && c ≤ 'Z') || ('0' ≤ c && c ≤ '9')

/-- First match of `/language-([a-zA-Z0-9]+)/`: scan for `language-`
followed by at least one alphanumeric character; on a failed match the scan
resumes one character further, as the regex engine does. -/
def findLangToken : List Char → Option (List Char)
  | [] => none
  | c :: cs =>
    if startsWith ( "language-".toList) (c :: cs) then
      let run := ((c :: cs).drop 9).takeWhile isAlnum
      if run = [] then findLangToken cs else some run
    else findLangToken cs

/-- A DOM node as the exporters see it: a text node, an element (lowercased
tag, attribute map, ordered children), or any other node kind (comments,
processing instructions), which every branch of the source skips. -/
inductive Node where
  | text (s : List Char)
  | other
  | elem (tag : List Char) (attrs : List (List Char × List Char)) (children : List Node)

/-- `childNodes` of a node (empty for non-elements). -/
def childrenOf : Node → List Node
  | .elem _ _ ch => ch
  | _ => []

/-- Attribute lookup, `getAttribute` (first binding wins). -/
def getAttr : List (List Char × List Char) → List Char → Option (List Char)
  | [], _ => none
  | (k, v) :: rest, name => if k = name then some v else getAttr rest name

/-- `element.getAttribute(name) || dflt`. -/
def getAttrD (attrs : List (List Char × List Char)) (name dflt : List Char) : List Char :=
  match getAttr attrs name with
  | some v => if v = [] then dflt else v
  | none => dflt

/-- `element.className || ""` (always a string in this model). -/
def classNameOf : Node → List Char
  | .elem _ attrs _ => getAttrD attrs ( "class".toList) []
  | _ => []

mutual

/-- `node.textContent`: concatenation of all descendant text. -/
def textContent : Node → List Char
  | .text s => s
  | .other => []
  | .elem _ _ ch => textContentList ch

/-- `textContent` over a child list. -/
def textContentList : List Node → List Char
  | [] => []
  | c :: cs => textContent c ++ textContentList cs

end

mutual

/-- `querySelector(tag)` over a child list in document order, returning the
match together with the tag of its parent element (the parent tag is what
`parentElement.tagName` would report for the match). -/
def findFirstTagP (t : List Char) : List Char → List Node → Option (List Char × Node)
  | _, [] => none
  | p, c :: cs =>
    match findFirstTagPNode t p c with
    | some r => some r
    | none => findFirstTagP t p cs

/-- One node of the `findFirstTagP` scan. -/
def findFirstTagPNode (t : List Char) : List Char → Node → Option (List Char × Node)
  | p, .elem tag attrs ch =>
    if tag = t then some (p, .elem tag attrs ch) else findFirstTagP t tag ch
  | _, _ => none

end

mutual

/-- `querySelectorAll("anc target")` scoped to a subtree: collect, in
document order, every element with tag `target` having a strict ancestor
with tag `anc` inside the scanned subtree; each match is paired with its
parent's tag. -/
def collectAncP (anc target : List Char) : Bool → List Char → List Node → List (List Char × Node)
  | _, _, [] => []
  | inside, p, c :: cs =>
    collectAncPNode anc target inside p c ++ collectAncP anc target inside p cs

/-- One node of the `collectAncP` scan. -/
def collectAncPNode (anc target : List Char) : Bool → List Char → Node → List (List Char × Node)
  | inside, p, .elem tag attrs ch =>
    (if tag = target ∧ inside = true then [(p, Node.elem tag attrs ch)] else []) ++
      collectAncP anc target (if tag = anc then true else inside) tag ch
  | _, _, _ => []

end

mutual

/-- `querySelectorAll` for a list of bare tag selectors (e.g. `"td, th"`),
in document order, each match paired with its parent's tag. -/
def collectTagsP (ts : List (List Char)) : List Char → List Node → List (List Char × Node)
  | _, [] => []
  | p, c :: cs => collectTagsPNode ts p c ++ collectTagsP ts p cs

/-- One node of the `collectTagsP` scan. -/
def collectTagsPNode (ts : List (List Char)) : List Char → Node → List (List Char × Node)
  | p, .elem tag attrs ch =>
    (if tag ∈ ts then [(p, Node.elem tag attrs ch)] else []) ++ collectTagsP ts tag ch
  | _, _ => []

end

mutual

/-- Number of nodes of a subtree (measure used to pick a sufficient fuel). -/
def nodeSize : Node → Nat
  | .text _ => 1
  | .other => 1
  | .elem _ _ ch => nodeSizeList ch + 1

/-- Total size of a child list. -/
def nodeSizeList : List Node → Nat
  | [] => 0
  | c :: cs => nodeSize c + nodeSizeList cs

end

/-- Tag of an element node. -/
def tagOf : Node → Option (List Char)
  | .elem t _ _ => some t
  | _ => none

/-- `img.width` as reflected from the `width` attribute (0 when absent or
unparsable, which is falsy in the source's `element.width &&` test). -/
def widthOf (attrs : List (List Char × List Char)) : Nat :=
  match getAttr attrs ( "width".toList) with
  | some v => match parseIntJS v with
    | some i => i.toNat
    | none => 0
  | none => 0

/-- The `list.querySelectorAll(":scope > li").forEach(...)` loop body of
`convertListToMarkdown`, abstracted over the element converter and the
nested-list converter.  For each direct `li`: partition its child nodes into
nested lists (converted at `indent + 1` and appended to the nested block)
and everything else (converted inline / raw text); emit the bullet line when
the newline-flattened trimmed text is nonempty, then the trailing-trimmed
nested block when nonempty; `incNum` models `itemNum++`. -/
def listItemsGo (convEl : Option (List Char) → Node → List Char)
    (convList : Node → Nat → List Char) (isOrdered : Bool)
    (indentStr : List Char) (indent : Nat) : Option Int → List Node → List (List Char)
  | _, [] => []
  | num, li :: rest =>
    let markerStr := if isOrdered then numToChars num ++ [ '.' ] else [ '-' ]
    let acc := (childrenOf li).foldl (fun (acc : List Char × List Char) child =>
      match child with
      | Node.elem tg _ _ =>
        if tg = "ul".toList ∨ tg = "ol".toList then
          (acc.1, acc.2 ++ convList child (indent + 1))
        else (acc.1 ++ convEl (some ( "li".toList)) child, acc.2)
      | Node.text s => (acc.1 ++ s, acc.2)
      | Node.other => acc) ([], [])
    let cleanText := jsTrim (nlEachToSpace acc.1)
    ((if cleanText = [] then [] else [indentStr ++ markerStr ++ [ ' ' ] ++ cleanText]) ++
      (if acc.2 = [] then [] else [trimEnd acc.2])) ++
      listItemsGo convEl convList isOrdered indentStr indent (incNum num) rest

mutual

/-- `convertElementToMarkdown` of the async exporter (`exporter-markdown.js`
is identical except that its `img` case lacks the `data-base64` branch),
indexed by fuel (every recursive call decrements it; the wrapper below
supplies more than enough).  The extra `Option (List Char)` argument is the
tag of the node's DOM parent, consulted only by the `code` case
(`element.parentElement.tagName`). -/
def convertElF : Nat → Option (List Char) → Node → List Char
  | 0, _, _ => []
  | fuel + 1, parentTag, n =>
    match n with
    | .text s => s
    | .other => []
    | .elem tag attrs ch =>
      if tag = "button".toList then
        match findFirstTagP ( "img".toList) tag ch with
        | some (pTag, img) => convertElF fuel (some pTag) img
        | none => []
      else if tag ∈ [ "svg".toList, "script".toList, "style".toList, "noscript".toList ] then []
      else
      let className := getAttrD attrs ( "class".toList) []
      if containsSub ( "copy".toList) className || containsSub ( "edit".toList) className ||
          containsSub ( "regenerate".toList) className ||
          containsSub ( "citation-pill".toList) className then []
      else
      let pcn := (ch.map (convertElF fuel (some tag))).flatten
      let textC := jsTrim (nlRunsToSpace pcn)
      let nl2 := "\n\n".toList
      if tag = "h1".toList then nl2 ++ "# ".toList ++ textC ++ nl2
      else if tag = "h2".toList then nl2 ++ "## ".toList ++ textC ++ nl2
      else if tag = "h3".toList then nl2 ++ "### ".toList ++ textC ++ nl2
      else if tag = "h4".toList then nl2 ++ "#### ".toList ++ textC ++ nl2
      else if tag = "h5".toList then nl2 ++ "##### ".toList ++ textC ++ nl2
      else if tag = "h6".toList then nl2 ++ "###### ".toList ++ textC ++ nl2
      else if tag = "p".toList then nl2 ++ pcn ++ nl2
      else if tag = "strong".toList ∨ tag = "b".toList then "**".toList ++ pcn ++ "**".toList
      else if tag = "em".toList ∨ tag = "i".toList then [ '*' ] ++ pcn ++ [ '*' ]
      else if tag = "code".toList then
        if parentTag = some ( "pre".toList) then textContent n
        else [ '`' ] ++ textContent n ++ [ '`' ]
      else if tag = "pre".toList then
        let code := textContent n
        let lang := match findFirstTagP ( "code".toList) tag ch with
          | some (_, codeEl) =>
            match findLangToken (classNameOf codeEl) with
            | some l => l
            | none => []
          | none => []
        nl2 ++ "```".toList ++ lang ++ [ '\n' ] ++ jsTrim code ++ [ '\n' ] ++ "```".toList ++ nl2
      else if tag = "ul".toList ∨ tag = "ol".toList then
        nl2 ++ convertListF fuel n 0 ++ nl2
      else if tag = "table".toList then convertTableF fuel n
      else if tag = "img".toList then
        let src := getAttrD attrs ( "src".toList) []
        let alt := getAttrD attrs ( "alt".toList) []
        if containsSub ( "favicon".toList) src || containsSub ( "avatar".toList) src ||
            containsSub ( "icon".toList) className ||
            (decide (widthOf attrs ≠ 0) && decide (widthOf attrs < 48)) then []
        else
          let imgAlt := if alt ≠ [] ∧ startsWith ( "http".toList) alt = false then alt
            else "Image".toList
          let base64Data := getAttrD attrs ( "data-base64".toList) []
          if base64Data ≠ [] then
            nl2 ++ "![".toList ++ imgAlt ++ "](".toList ++ base64Data ++ [ ')' ] ++ nl2
          else
            let imgSrc := if startsWith ( "blob:".toList) src then src.drop 5 else src
            nl2 ++ "![".toList ++ imgAlt ++ "](".toList ++ imgSrc ++ [ ')' ] ++ nl2
      else if tag = "canvas".toList then nl2 ++ "[Canvas Image]".toList ++ nl2
      else if tag = "br".toList then [ '\n' ]
      else if tag = "hr".toList then nl2 ++ "---".toList ++ nl2
      else if tag = "a".toList then
        let href := jsTrim (getAttrD attrs ( "href".toList) [])
        let lowerHref := lowerChars href
        if href = [] ∨ startsWith ( "javascript:".toList) lowerHref = true ∨
            startsWith ( "data:".toList) lowerHref = true ∨
            startsWith ( "vbscript:".toList) lowerHref = true ∨
            startsWith ( "#".toList) href = true then pcn
        else
          let text := if textC = [] then href else textC
          let escapedText := escapeMarkdownText text
          let safeHref := replaceAll ( ")".toList) ( "%29".toList)
            (replaceAll ( "\\".toList) ( "%5C".toList) href)
          [ '[' ] ++ escapedText ++ "](".toList ++ safeHref ++ [ ')' ]
      else if tag = "blockquote".toList then
        nl2 ++ "> ".toList ++ replaceAll [ '\n' ] ( "\n> ".toList) pcn ++ nl2
      else if tag ∈ [ "span".toList, "div".toList, "article".toList, "section".toList,
          "main".toList, "header".toList, "footer".toList, "aside".toList,
          "nav".toList ] then pcn
      else if tag = "template".toList then []
      else pcn

/-- `convertListToMarkdown(list, indent)`: marker kind from the tag, start
number from the `start` attribute (`|| "1"`, through `parseInt`), two spaces
of indentation per level, items joined with single newlines. -/
def convertListF : Nat → Node → Nat → List Char
  | 0, _, _ => []
  | fuel + 1, list, indent =>
    match list with
    | .elem tag attrs ch =>
      let isOrdered := tag == "ol".toList
      let startNum := parseIntJS (getAttrD attrs ( "start".toList) ( "1".toList))
      let indentStr := List.replicate (2 * indent) ' '
      let lis := ch.filter (fun c => match c with
        | Node.elem t _ _ => t == "li".toList
        | _ => false)
      [ '\n' ].intercalate
        (listItemsGo (convertElF fuel) (convertListF fuel) isOrdered indentStr indent startNum lis)
    | _ => []

/-- `convertTableToMarkdown(table)`: header row from `thead tr` (header
cells `th`, plus a `---` separator row of the same width), body rows from
`tbody tr` (cells `td, th`); each cell is converted, newline-flattened and
trimmed; empty tables yield the empty string. -/
def convertTableF : Nat → Node → List Char
  | 0, _ => []
  | fuel + 1, table =>
    match table with
    | .elem tag _ ch =>
      let headerRow := (collectAncP ( "thead".toList) ( "tr".toList) false tag ch).head?
      let bodyRows := collectAncP ( "tbody".toList) ( "tr".toList) false tag ch
      let headerRows := match headerRow with
        | some pr =>
          let headers := (collectTagsP [ "th".toList ] ( "tr".toList) (childrenOf pr.2)).map
            (fun pc => jsTrim (nlEachToSpace (convertElF fuel (some pc.1) pc.2)))
          if headers = [] then []
          else
            [ "| ".toList ++ ( " | ".toList).intercalate headers ++ " |".toList,
              "| ".toList ++ ( " | ".toList).intercalate (headers.map (fun _ => "---".toList)) ++
                " |".toList ]
        | none => []
      let cellRows := (bodyRows.map (fun ptr =>
        let cells := (collectTagsP [ "td".toList, "th".toList ] ( "tr".toList)
            (childrenOf ptr.2)).map
          (fun pc => jsTrim (nlEachToSpace (convertElF fuel (some pc.1) pc.2)))
        if cells = [] then ([] : List (List Char))
        else [ "| ".toList ++ ( " | ".toList).intercalate cells ++ " |".toList])).flatten
      let rows := headerRows ++ cellRows
      if rows = [] then []
      else "\n\n".toList ++ [ '\n' ].intercalate rows ++ "\n\n".toList
    | _ => []

end

/-- `processChildNodes(element)`: concatenate the conversions of the child
nodes (their DOM parent is the element itself). -/
def processChildNodesF (fuel : Nat) (n : Node) : List Char :=
  ((childrenOf n).map (convertElF fuel (tagOf n))).flatten

/-- `getTextContent(element)`: child conversion with newline runs flattened
to single spaces, trimmed. -/
def getTextContentF (fuel : Nat) (n : Node) : List Char :=
  jsTrim (nlRunsToSpace (processChildNodesF fuel n))

/-- `convertElementToMarkdown` with fuel ample for the whole subtree. -/
def convertElementToMarkdown (parentTag : Option (List Char)) (n : Node) : List Char :=
  convertElF (3 * nodeSize n + 3) parentTag n

/-- `convertListToMarkdown` with fuel ample for the whole subtree. -/
def convertListToMarkdown (list : Node) (indent : Nat) : List Char :=
  convertListF (3 * nodeSize list + 3) list indent

/-- A locator candidate as the `validMessages` filters see it: its
`textContent`, whether `querySelector('input[type="text"], textarea')`
finds a control inside it, and its `classList` tokens. -/
structure Candidate where
  text : List Char
  hasTextInput : Bool
  classes : List (List Char)
deriving DecidableEq

/-- The `validMessages` filter of the async markdown exporter
(`part_000`) and of `exporter-html.js`, which are identical: trimmed text
length within `[5, 100000]`, no text-input control, no `typing`/`loading`
class. -/
def validMessageAsync (msg : Candidate) : Bool :=
  let text := jsTrim msg.text
  if text.length < 5 then false
  else if text.length > 100000 then false
  else if msg.hasTextInput then false
  else if msg.classes.contains ( "typing".toList) || msg.classes.contains ( "loading".toList) then
    false
  else true

/-- The `validMessages` filter of `exporter-markdown.js`: trimmed text
length within `[30, 100000]`, no text-input control, no `typing`/`loading`
class, and at least 5 space-separated words after whitespace collapsing. -/
def validMessageMd (msg : Candidate) : Bool :=
  let text := jsTrim msg.text
  if text.length < 30 then false
  else if text.length > 100000 then false
  else if msg.hasTextInput then false
  else if msg.classes.contains ( "typing".toList) || msg.classes.contains ( "loading".toList) then
    false
  else
    let meaningfulText := jsTrim (collapseWS text)
    if (meaningfulText.splitOn ' ').length < 5 then false
    else true

/-- The nested-message consolidation loop shared by all three `findMessages`
implementations, over an abstract element type with a `contains` relation
(DOM `Node.contains` restricted to proper descendants, since `other !== msg`
is checked separately).  State: `(consolidatedMessages, usedElements)`;
an element is skipped when some *other*, *not yet used* valid element
contains it. -/
def consolidate {α : Type} [DecidableEq α] (contains : α → α → Bool)
    (validMessages : List α) : List α :=
  (validMessages.foldl (fun (acc : List α × List α) msg =>
    if msg ∈ acc.2 then acc
    else if validMessages.any (fun other =>
        decide (other ≠ msg) && contains other msg && !(decide (other ∈ acc.2))) then acc
    else (acc.1 ++ [msg], msg :: acc.2)) ([], [])).1

/-- One attributed message record of the async exporter:
`{ sender, reliable, content }` (`replyLabel` and `originalIndex` play no
role in the correction pass and are omitted). -/
structure Msg where
  sender : List Char
  reliable : Bool
  content : List Char
deriving DecidableEq

/-- The string `'ChatGPT'`. -/
def gptName : List Char := "ChatGPT".toList

/-- The string `'You'`. -/
def youName : List Char := "You".toList

/-- The body of the sender-sequence correction loop of the async exporter
(`part_000`), written as a left-to-right scan: `prev` is
`processedMessages[i-1]` as already updated by earlier iterations, the list
argument holds the remaining messages.  A pair with a reliable side is
skipped; an adjacent same-sender pair is resolved by relative content
length, else by flipping the later sender.  (`exporter-markdown.js` and
`exporter-html.js` run the same loop without the reliability skip, on
records that carry no `reliable` flag.) -/
def correctGo : Msg → List Msg → List Msg
  | prev, [] => [prev]
  | prev, cur :: rest =>
    if cur.reliable || prev.reliable then prev :: correctGo cur rest
    else if cur.sender = prev.sender then
      let currentLength := cur.content.length
      let previousLength := prev.content.length
      if currentLength > previousLength * 2 ∧ currentLength > 500 then
        prev :: correctGo { cur with sender := gptName } rest
      else if previousLength > currentLength * 2 ∧ previousLength > 500 then
        { prev with sender := gptName } :: correctGo { cur with sender := youName } rest
      else
        prev :: correctGo { cur with sender := if cur.sender = youName then gptName else youName } rest
    else prev :: correctGo cur rest

/-- The whole correction pass (`for (let i = 1; i < length; i++) ...`). -/
def correctionPass : List Msg → List Msg
  | [] => []
  | m :: rest => correctGo m rest

/-- A processed turn as the assembly loops see it: the attributed sender,
the converted content, and the element's raw `textContent`. -/
structure Turn where
  sender : List Char
  content : List Char
  text : List Char
deriving DecidableEq

/-- The skip-or-deduplicate loop shared by the assemblers: `skip` is the
too-short test, `key` the content-hash; `seen` is the `seenContent` set.
A turn whose key was seen is dropped entirely. -/
def dedupGo (skip : Turn → Bool) (key : Turn → List Char) :
    List (List Char) → List Turn → List Turn
  | _, [] => []
  | seen, t :: ts =>
    if skip t then dedupGo skip key seen ts
    else if key t ∈ seen then dedupGo skip key seen ts
    else t :: dedupGo skip key (key t :: seen) ts

/-- The message-processing loop of `exporter-markdown.js`: skip when the
converted content is empty or its trimmed length is under 30; deduplicate by
`content.substring(0,100).replace(/\s+/g," ").trim()`. -/
def assembleMd (turns : List Turn) : List Turn :=
  dedupGo (fun t => decide (t.content = [] ∨ (jsTrim t.content).length < 30))
    (fun t => fingerprint t.content) [] turns

/-- The message-processing loop of `exporter-html.js`: skip when the
element's trimmed `textContent` is empty or shorter than 5; deduplicate by
`textContent.substring(0,100).replace(/\s+/g," ").trim()` — the hash is
taken from the raw text, not from the converted content. -/
def assembleHtml (turns : List Turn) : List Turn :=
  dedupGo (fun t => decide (jsTrim t.text = [] ∨ (jsTrim t.text).length < 5))
    (fun t => fingerprint (jsTrim t.text)) [] turns

/-- An `img` element as `imageToBase64`/`drawImageToBase64` read it. -/
structure ImgElement where
  src : List Char
  complete : Bool
  naturalWidth : Nat
  naturalHeight : Nat
  width : Nat
  height : Nat

/-- Outcome of the asynchronous load race in `imageToBase64`: the `onload`
handler fired first (with the loaded element), the `onerror` handler fired
first, or the 5-second `setTimeout` ceiling elapsed first.  Real time is
abstracted into this three-way outcome. -/
inductive LoadOutcome where
  | loaded (img : ImgElement)
  | errored
  | timedOut

/-- The canvas environment of `drawImageToBase64`: whether
`drawImage`/`toDataURL` throws for a given element (e.g. a cross-origin
taint), and the data URL `toDataURL('image/png')` would produce. -/
structure CanvasEnv where
  drawThrows : ImgElement → Bool
  encode : ImgElement → List Char

/-- `drawImageToBase64(img)`: canvas sized to `naturalWidth || width` by
`naturalHeight || height`; zero area yields `null`; any draw/encode
exception is caught and yields `null`. -/
def drawImageToBase64 (env : CanvasEnv) (img : ImgElement) : Option (List Char) :=
  let w := if img.naturalWidth ≠ 0 then img.naturalWidth else img.width
  let h := if img.naturalHeight ≠ 0 then img.naturalHeight else img.height
  if w = 0 ∨ h = 0 then none
  else if env.drawThrows img then none
  else some (env.encode img)

/-- `imageToBase64(imgElement)` (identical in `exporter-html.js` and the
async exporter): skip UI images by `src` substring without any load; draw
directly for `blob:` or already-complete elements; otherwise the result of
the load-versus-timeout race, with error and timeout resolving to `null`.
Every failure path folds into `none`; no exception escapes. -/
def imageToBase64 (env : CanvasEnv) (load : LoadOutcome) (imgElement : ImgElement) :
    Option (List Char) :=
  let src := imgElement.src
  if containsSub ( "favicon".toList) src || containsSub ( "avatar".toList) src then none
  else if startsWith ( "blob:".toList) src || imgElement.complete then
    drawImageToBase64 env imgElement
  else match load with
    | .loaded img => drawImageToBase64 env img
    | .errored => none
    | .timedOut => none

/-- The `containment` relation of the two-element counterexample document:
element 0 is a structural ancestor of element 1 (`0.contains(1)`), as for an
outer conversation-turn container and an inner duplicate-matching
container; `querySelectorAll` returns matches in document order, so the
ancestor 0 precedes its descendant 1 in `validMessages`. -/
def demoContains (a b : Nat) : Bool := a == 0 && b == 1

/-- `<button class="copy"><img src="x.png"></button>`. -/
def demoButton : Node :=
  Node.elem ( "button".toList) [( "class".toList, "copy".toList)]
    [Node.elem ( "img".toList) [( "src".toList, "x.png".toList)] []]

/-- `<a href="javascript:alert(1)" class="copy">hi</a>`. -/
def demoAnchor : Node :=
  Node.elem ( "a".toList)
    [( "href".toList, "javascript:alert(1)".toList), ( "class".toList, "copy".toList)]
    [Node.text ( "hi".toList)]

/-- `<ol start="3"><li>a</li><li>b</li></ol>`. -/
def demoOl : Node :=
  Node.elem ( "ol".toList) [( "start".toList, "3".toList)]
    [Node.elem ( "li".toList) [] [Node.text ( "a".toList)],
     Node.elem ( "li".toList) [] [Node.text ( "b".toList)]]

/-- A candidate with 16 characters of trimmed text, no text-input control
and no status class. -/
def demoCandidate : Candidate := ⟨ "hello there nine".toList, false, []⟩

/-- A turn whose converted content is `"same"` and raw text `"AAAAA"`. -/
def demoTurnA : Turn := ⟨ youName, "same".toList, "AAAAA".toList⟩

/-- A turn with the same converted content as `demoTurnA` but raw text
`"BBBBB"`. -/
def demoTurnB : Turn := ⟨ gptName, "same".toList, "BBBBB".toList⟩

/-- Invariant of `collapseNLGo`: scanning with `run` preceding newlines, no
position carries a newline already preceded by two.  `collapseNLGo run` is
the identity exactly on strings satisfying this. -/
def collapseNLOk : Nat → List Char → Bool
  | _, [] => true
  | run, c :: cs =>
    if c = '\n' then decide (run < 2) && collapseNLOk (run + 1) cs
    else collapseNLOk 0 cs

/-- An `li` element holding a single text node. -/
def mkListItem (t : List Char) : Node :=
  Node.elem ( "li".toList) [] [Node.text t]

/-- Stated from the spec's words for the ordered-list claim: item lines
numbered from the start value, incremented once per item, each line being
indentation, `n. `, then the newline-flattened trimmed item text. -/
def orderedItemLines (indentStr : List Char) : Int → List (List Char) → List (List Char)
  | _, [] => []
  | k, t :: ts =>
    (indentStr ++ intToChars k ++ ". ".toList ++ jsTrim (nlEachToSpace t)) ::
      orderedItemLines indentStr (k + 1) ts

/-- Stated from the spec's words for the unordered-list claim: `- ` lines. -/
def unorderedItemLines (indentStr : List Char) (texts : List (List Char)) : List (List Char) :=
  texts.map (fun t => indentStr ++ "- ".toList ++ jsTrim (nlEachToSpace t))

/-! ### Lemmas about `collapseNewlines`, trimming, and `cleanMarkdown` -/

/-- The output of `collapseNLGo run` satisfies the `collapseNLOk run`
invariant: it never contains three consecutive newlines (relative to the
incoming run). -/
theorem collapseNLGo_ok (s : List Char) : ∀ run, collapseNLOk run (collapseNLGo run s) = true := by
  induction s with
  | nil => intro run; rfl
  | cons c cs ih =>
    intro run
    by_cases hc : c = '\n'
    · subst hc
      by_cases hr : run ≥ 2
      · simpa [collapseNLGo, hr] using ih run
      · have hlt : run < 2 := Nat.lt_of_not_le hr
        simp [collapseNLGo, hr, collapseNLOk, hlt]
        exact ih (run + 1)
    · simp [collapseNLGo, hc, collapseNLOk]
      exact ih 0

/-- `collapseNLGo run` is the identity on strings satisfying the
invariant. -/
theorem collapseNLOk_go_id (s : List Char) :
    ∀ run, collapseNLOk run s = true → collapseNLGo run s = s := by
  induction s with
  | nil => intro run _; rfl
  | cons c cs ih =>
    intro run h
    by_cases hc : c = '\n'
    · subst hc
      simp [collapseNLOk] at h
      have hr : ¬ run ≥ 2 := by omega
      simp [collapseNLGo, hr]
      exact ih (run + 1) h.2
    · simp [collapseNLOk, hc] at h
      simp [collapseNLGo, hc]
      exact ih 0 h

/-- Weakening the incoming run count preserves the invariant. -/
theorem collapseNLOk_mono (s : List Char) :
    ∀ run run', run' ≤ run → collapseNLOk run s = true → collapseNLOk run' s = true := by
  induction s with
  | nil => intro _ _ _ _; rfl
  | cons c cs ih =>
    intro run run' hle h
    by_cases hc : c = '\n'
    · subst hc
      simp [collapseNLOk] at h ⊢
      exact ⟨by omega, ih (run + 1) (run' + 1) (by omega) h.2⟩
    · simp [collapseNLOk, hc] at h ⊢
      exact h

/-- The invariant restricted to a suffix (with some incoming run count). -/
theorem collapseNLOk_append_right (ys : List Char) :
    ∀ xs run, collapseNLOk run (xs ++ ys) = true → ∃ r, collapseNLOk r ys = true := by
  intro xs
  induction xs with
  | nil => intro run h; exact ⟨run, h⟩
  | cons c cs ih =>
    intro run h
    by_cases hc : c = '\n'
    · subst hc
      simp [collapseNLOk] at h
      exact ih (run + 1) h.2
    · simp [collapseNLOk, hc] at h
      exact ih 0 h

/-- The invariant restricted to a prefix. -/
theorem collapseNLOk_append_left (ys : List Char) :
    ∀ xs run, collapseNLOk run (xs ++ ys) = true → collapseNLOk run xs = true := by
  intro xs
  induction xs with
  | nil => intro run _; rfl
  | cons c cs ih =>
    intro run h
    by_cases hc : c = '\n'
    · subst hc
      simp [collapseNLOk] at h ⊢
      exact ⟨h.1, ih (run + 1) h.2⟩
    · simp [collapseNLOk, hc] at h ⊢
      exact ih 0 h

/-- `dropWhile` is idempotent. -/
theorem dropWhile_idem (p : Char → Bool) (l : List Char) :
    (l.dropWhile p).dropWhile p = l.dropWhile p := by
  induction l with
  | nil => rfl
  | cons c cs ih =>
    by_cases h : p c
    · simp [List.dropWhile_cons, h, ih]
    · simp [List.dropWhile_cons, h]

/-- The head of a nonempty `dropWhile` result fails the predicate. -/
theorem head_dropWhile (p : Char → Bool) (l : List Char) (c : Char) (cs : List Char)
    (h : l.dropWhile p = c :: cs) : p c = false := by
  induction l with
  | nil => simp at h
  | cons a as ih =>
    by_cases ha : p a
    · exact ih (by simpa [List.dropWhile_cons, ha] using h)
    · rw [List.dropWhile_cons] at h
      simp [ha] at h
      simp [← h.1, ha]

/-- `trimEnd` yields a prefix of its argument. -/
theorem trimEnd_prefixOf (u : List Char) : trimEnd u <+: u := by
  have h1 : (u.reverse.dropWhile isWS) <:+ u.reverse := List.dropWhile_suffix isWS
  have h2 : (trimEnd u).reverse <:+ u.reverse := by
    simpa [trimEnd] using h1
  exact List.reverse_suffix.mp h2

/-- `trimLeft` yields a suffix of its argument. -/
theorem trimLeft_suffix (t : List Char) : trimLeft t <:+ t :=
  List.dropWhile_suffix isWS

/-- `trimLeft` fixes strings produced by `trimLeft` followed by
`trimEnd`. -/
theorem trimLeft_trimEnd_trimLeft (t : List Char) :
    trimLeft (trimEnd (trimLeft t)) = trimEnd (trimLeft t) := by
  cases hu : trimEnd (trimLeft t) with
  | nil => rfl
  | cons c cs =>
    have hpre : trimEnd (trimLeft t) <+: trimLeft t := trimEnd_prefixOf (trimLeft t)
    rw [hu] at hpre
    obtain ⟨zs, hz⟩ := hpre
    have hc : isWS c = false := by
      apply head_dropWhile isWS t
      calc t.dropWhile isWS = trimLeft t := rfl
        _ = c :: (cs ++ zs) := by rw [← hz]; simp
    simp [trimLeft, List.dropWhile_cons, hc]

/-- `trimEnd` is idempotent. -/
theorem trimEnd_idem (u : List Char) : trimEnd (trimEnd u) = trimEnd u := by
  simp [trimEnd, dropWhile_idem]

/-- `jsTrim` is idempotent. -/
theorem jsTrim_idem (t : List Char) : jsTrim (jsTrim t) = jsTrim t := by
  show trimEnd (trimLeft (trimEnd (trimLeft t))) = trimEnd (trimLeft t)
  rw [trimLeft_trimEnd_trimLeft, trimEnd_idem]

/-- Characters of `collapseNLGo` output come from the input. -/
theorem mem_collapseNLGo (s : List Char) :
    ∀ run c, c ∈ collapseNLGo run s → c ∈ s := by
  induction s with
  | nil => intro run c h; simp [collapseNLGo] at h
  | cons a as ih =>
    intro run c h
    by_cases ha : a = '\n'
    · subst ha
      by_cases hr : run ≥ 2
      · simp [collapseNLGo, hr] at h
        exact List.mem_cons_of_mem _ (ih run c h)
      · simp [collapseNLGo, hr] at h
        rcases h with h | h
        · simp [h]
        · exact List.mem_cons_of_mem _ (ih (run + 1) c h)
    · simp [collapseNLGo, ha] at h
      rcases h with h | h
      · simp [h]
      · exact List.mem_cons_of_mem _ (ih 0 c h)

/-- Characters of `jsTrim` output come from the input. -/
theorem mem_jsTrim (t : List Char) (c : Char) (h : c ∈ jsTrim t) : c ∈ t := by
  have h1 : c ∈ trimLeft t := by
    have := (trimEnd_prefixOf (trimLeft t)).sublist
    exact this.mem h
  exact (trimLeft_suffix t).sublist.mem h1

/-- The invariant survives `jsTrim` (a prefix of a suffix). -/
theorem collapseNLOk_jsTrim (t : List Char) (h : collapseNLOk 0 t = true) :
    collapseNLOk 0 (jsTrim t) = true := by
  obtain ⟨xs, hxs⟩ := trimLeft_suffix t
  have h1 : ∃ r, collapseNLOk r (trimLeft t) = true :=
    collapseNLOk_append_right (trimLeft t) xs 0 (by rw [hxs]; exact h)
  obtain ⟨r, hr⟩ := h1
  have h2 : collapseNLOk 0 (trimLeft t) = true :=
    collapseNLOk_mono (trimLeft t) r 0 (Nat.zero_le r) hr
  obtain ⟨zs, hzs⟩ := trimEnd_prefixOf (trimLeft t)
  exact collapseNLOk_append_left zs (trimEnd (trimLeft t)) 0 (by rw [hzs]; exact h2)

/-- `replaceAll` with a pattern starting in `&` is the identity on strings
without `&`. -/
theorem replaceAll_id_of_no_amp (pat rep t : List Char) (hp : pat.head? = some '&')
    (h : ∀ c ∈ t, c ≠ '&') : replaceAll pat rep t = t := by
  cases pat with
  | nil => simp at hp
  | cons p ps =>
    simp at hp
    subst hp
    show replaceAllGo ('&' :: ps) rep 0 t = t
    induction t with
    | nil => rfl
    | cons c cs ih =>
      have hc : c ≠ '&' := h c (List.mem_cons_self c cs)
      have hs : startsWith ('&' :: ps) (c :: cs) = false := by
        simp [startsWith]
        intro heq
        exact absurd heq.symm hc
      simp [replaceAllGo, hs]
      exact ih (fun d hd => h d (List.mem_cons_of_mem c hd))

/-- The five entity un-escapes of `cleanMarkdown` are the identity on
strings without `&`. -/
theorem entities_id (t : List Char) (h : ∀ c ∈ t, c ≠ '&') :
    replaceAll ( "&quot;".toList) ( "\"".toList)
      (replaceAll ( "&nbsp;".toList) ( " ".toList)
        (replaceAll ( "&amp;".toList) ( "&".toList)
          (replaceAll ( "&gt;".toList) ( ">".toList)
            (replaceAll ( "&lt;".toList) ( "<".toList) t)))) = t := by
  rw [replaceAll_id_of_no_amp ( "&lt;".toList) _ t rfl h,
    replaceAll_id_of_no_amp ( "&gt;".toList) _ t rfl h,
    replaceAll_id_of_no_amp ( "&amp;".toList) _ t rfl h,
    replaceAll_id_of_no_amp ( "&nbsp;".toList) _ t rfl h,
    replaceAll_id_of_no_amp ( "&quot;".toList) _ t rfl h]

/-- `stripLine` is the identity on lines without horizontal whitespace. -/
theorem stripLine_id (line : List Char) (h : ∀ c ∈ line, isHWS c = false) :
    stripLine line = line := by
  cases line with
  | nil => rfl
  | cons c cs =>
    have hc : isHWS c = false := h c (List.mem_cons_self c cs)
    simp [stripLine, List.takeWhile_cons, hc]

/-- Membership in `intersperse` from membership in the list. -/
theorem mem_intersperse_of_mem (l : List (List Char)) (sep x : List Char) (h : x ∈ l) :
    x ∈ l.intersperse sep := by
  induction l with
  | nil => simp at h
  | cons a as ih =>
    cases as with
    | nil => simpa using h
    | cons b bs =>
      simp only [List.intersperse] at ih ⊢
      rcases List.mem_cons.mp h with h1 | h1
      · exact h1 ▸ List.mem_cons_self _ _
      · exact List.mem_cons_of_mem _ (List.mem_cons_of_mem _ (ih h1))

/-- Characters of the lines of `splitOn '\n'` come from the string. -/
theorem mem_of_mem_splitOn (s line : List Char) (c : Char)
    (hl : line ∈ s.splitOn '\n') (hc : c ∈ line) : c ∈ s := by
  have h1 : line ∈ (s.splitOn '\n').intersperse [ '\n' ] :=
    mem_intersperse_of_mem _ _ _ hl
  have h2 : c ∈ ((s.splitOn '\n').intersperse [ '\n' ]).flatten :=
    List.mem_flatten.mpr ⟨line, h1, hc⟩
  have h3 : ([ '\n' ] : List Char).intercalate (s.splitOn '\n') = s :=
    List.intercalate_splitOn s '\n'
  have h4 : (([ '\n' ] : List Char).intercalate (s.splitOn '\n')) =
      ((s.splitOn '\n').intersperse [ '\n' ]).flatten := by
    simp [List.intercalate]
  rw [h4] at h3
  rw [h3] at h2
  exact h2

/-- `stripLeadingWS` is the identity on strings without horizontal
whitespace. -/
theorem stripLeadingWS_id (s : List Char) (h : ∀ c ∈ s, isHWS c = false) :
    stripLeadingWS s = s := by
  unfold stripLeadingWS
  have hmap : (s.splitOn '\n').map stripLine = s.splitOn '\n' := by
    have hall : ∀ line ∈ s.splitOn '\n', stripLine line = line := fun line hl =>
      stripLine_id line (fun c hc => h c (mem_of_mem_splitOn s line c hl hc))
    calc (s.splitOn '\n').map stripLine = (s.splitOn '\n').map id :=
          List.map_congr_left hall
      _ = s.splitOn '\n' := List.map_id _
  rw [hmap]
  exact List.intercalate_splitOn s '\n'

/-- On strings with no ampersand and no horizontal whitespace,
`cleanMarkdown` reduces to collapsing newline runs and trimming. -/
theorem cleanMarkdown_eq_of_plain (t : List Char)
    (h : ∀ c ∈ t, c ≠ '&' ∧ c ≠ ' ' ∧ c ≠ '\t') :
    cleanMarkdown t = jsTrim (collapseNewlines t) := by
  have hno_amp : ∀ c ∈ collapseNewlines t, c ≠ '&' := fun c hc =>
    (h c (mem_collapseNLGo t 0 c hc)).1
  have hhws : ∀ c ∈ collapseNewlines t, isHWS c = false := fun c hc => by
    have hc2 := h c (mem_collapseNLGo t 0 c hc)
    simp [isHWS, hc2.2.1, hc2.2.2]
  unfold cleanMarkdown
  rw [entities_id (collapseNewlines t) hno_amp, stripLeadingWS_id (collapseNewlines t) hhws]

/-! ### Claim theorems -/

/-- C3 (counterexample): the per-turn cleanup is not idempotent.  On
`"a\n \n \nb"` the first pass turns the whitespace-only lines into empty
lines, producing a run of three newlines that only the second pass
collapses; on `"&amp;lt;"` the first pass un-escapes `&amp;` to `&`,
producing `&lt;` which only the second pass un-escapes. -/
theorem c3_cleanup_not_idempotent :
    cleanMarkdown (cleanMarkdown ( "a\n \n \nb".toList)) ≠ cleanMarkdown ( "a\n \n \nb".toList) ∧
      cleanMarkdown ( "a\n \n \nb".toList) = ( "a\n\n\nb".toList) ∧
      cleanMarkdown (cleanMarkdown ( "a\n \n \nb".toList)) = ( "a\n\nb".toList) ∧
      cleanMarkdown (cleanMarkdown ( "&amp;lt;".toList)) ≠ cleanMarkdown ( "&amp;lt;".toList) := by
  refine ⟨by decide, by decide, by decide, by decide⟩

/-- C3 (amended): the cleanup is idempotent on every string containing no
ampersand, no space and no tab — i.e. whenever the entity un-escapes and the
line-leading-whitespace strip cannot fire, collapsing newline runs and
trimming is a projection. -/
theorem c3_cleanup_idempotent_on_plain (s : List Char)
    (h : ∀ c ∈ s, c ≠ '&' ∧ c ≠ ' ' ∧ c ≠ '\t') :
    cleanMarkdown (cleanMarkdown s) = cleanMarkdown s := by
  have h1 : cleanMarkdown s = jsTrim (collapseNewlines s) := cleanMarkdown_eq_of_plain s h
  have hr_mem : ∀ c ∈ jsTrim (collapseNewlines s), c ≠ '&' ∧ c ≠ ' ' ∧ c ≠ '\t' := fun c hc =>
    h c (mem_collapseNLGo s 0 c (mem_jsTrim _ c hc))
  have h2 : cleanMarkdown (jsTrim (collapseNewlines s)) =
      jsTrim (collapseNewlines (jsTrim (collapseNewlines s))) :=
    cleanMarkdown_eq_of_plain _ hr_mem
  have hok : collapseNLOk 0 (collapseNewlines s) = true := collapseNLGo_ok s 0
  have hok2 : collapseNLOk 0 (jsTrim (collapseNewlines s)) = true := collapseNLOk_jsTrim _ hok
  have h3 : collapseNewlines (jsTrim (collapseNewlines s)) = jsTrim (collapseNewlines s) :=
    collapseNLOk_go_id _ 0 hok2
  rw [h1, h2, h3, jsTrim_idem]

/-- C3 (witness): the amended idempotence applied at `"ab\n\n\n\ncd"`. -/
theorem c3_cleanup_idempotent_witness :
    (∀ c ∈ ( "ab\n\n\n\ncd".toList), c ≠ '&' ∧ c ≠ ' ' ∧ c ≠ '\t') ∧
      cleanMarkdown (cleanMarkdown ( "ab\n\n\n\ncd".toList)) =
        cleanMarkdown ( "ab\n\n\n\ncd".toList) :=
  ⟨by decide, c3_cleanup_idempotent_on_plain _ (by decide)⟩

/-- C1 (failing input): with two surviving matches where element 0 contains
element 1 and document order lists the ancestor first, the consolidation
loop keeps BOTH: when the descendant is processed its only containing
element is already in `usedElements`, so the `!usedElements.has(other)`
conjunct makes `isNested` false and the descendant is pushed — contradicting
the claim (and the loop's own "Remove nested messages" comment). -/
theorem c1_consolidate_keeps_nested_descendant :
    demoContains 0 1 = true ∧ consolidate demoContains [0, 1] = [0, 1] ∧
      1 ∈ consolidate demoContains [0, 1] := by
  refine ⟨rfl, by decide, by decide⟩

/-- C4 (counterexample): a candidate whose trimmed text has 16 characters,
no text-input control and no status class satisfies every condition the
claim lists, and the async/HTML filter indeed keeps it — but the
`exporter-markdown.js` filter rejects it (its threshold is 30 characters
plus a 5-word minimum), so the claim's "no element satisfying all of them is
rejected on any other ground" fails for that locator. -/
theorem c4_markdown_filter_stricter :
    5 ≤ (jsTrim demoCandidate.text).length ∧ (jsTrim demoCandidate.text).length ≤ 100000 ∧
      demoCandidate.hasTextInput = false ∧ demoCandidate.classes = [] ∧
      validMessageAsync demoCandidate = true ∧ validMessageMd demoCandidate = false := by
  refine ⟨by decide, by decide, rfl, rfl, by decide, by decide⟩

/-- C4 (amended): the async markdown exporter and the HTML exporter keep a
candidate exactly when its trimmed text length lies in `[5, 100000]`, it has
no text-input control, and carries neither the `typing` nor the `loading`
class; `exporter-markdown.js` instead requires length in `[30, 100000]` and
additionally at least 5 space-separated words, with the same control and
class conditions. -/
theorem c4_filter_characterization :
    (∀ msg : Candidate, validMessageAsync msg = true ↔
      (5 ≤ (jsTrim msg.text).length ∧ (jsTrim msg.text).length ≤ 100000 ∧
        msg.hasTextInput = false ∧ ( "typing".toList) ∉ msg.classes ∧
        ( "loading".toList) ∉ msg.classes)) ∧
    (∀ msg : Candidate, validMessageMd msg = true ↔
      (30 ≤ (jsTrim msg.text).length ∧ (jsTrim msg.text).length ≤ 100000 ∧
        msg.hasTextInput = false ∧ ( "typing".toList) ∉ msg.classes ∧
        ( "loading".toList) ∉ msg.classes ∧
        5 ≤ ((jsTrim (collapseWS (jsTrim msg.text))).splitOn ' ').length)) := by
  constructor
  · intro msg
    simp only [validMessageAsync]
    split_ifs with h1 h2 h3 h4
    · exact iff_of_false (by simp) (fun hP => absurd hP.1 (by omega))
    · exact iff_of_false (by simp) (fun hP => absurd hP.2.1 (by omega))
    · exact iff_of_false (by simp) (fun hP => by simp [hP.2.2.1] at h3)
    · refine iff_of_false (by simp) (fun hP => ?_)
      rcases (by simpa using h4 :
          msg.classes.contains ( "typing".toList) = true ∨
            msg.classes.contains ( "loading".toList) = true) with h | h
      · exact hP.2.2.2.1 (List.elem_iff.mp h)
      · exact hP.2.2.2.2 (List.elem_iff.mp h)
    · refine iff_of_true rfl ⟨by omega, by omega, by simpa using h3, ?_, ?_⟩
      · exact fun hm => h4 (by simp; exact Or.inl hm)
      · exact fun hm => h4 (by simp; exact Or.inr hm)
  · intro msg
    simp only [validMessageMd]
    split_ifs with h1 h2 h3 h4 h5
    · exact iff_of_false (by simp) (fun hP => absurd hP.1 (by omega))
    · exact iff_of_false (by simp) (fun hP => absurd hP.2.1 (by omega))
    · exact iff_of_false (by simp) (fun hP => by simp [hP.2.2.1] at h3)
    · refine iff_of_false (by simp) (fun hP => ?_)
      rcases (by simpa using h4 :
          msg.classes.contains ( "typing".toList) = true ∨
            msg.classes.contains ( "loading".toList) = true) with h | h
      · exact hP.2.2.2.1 (List.elem_iff.mp h)
      · exact hP.2.2.2.2.1 (List.elem_iff.mp h)
    · exact iff_of_false (by simp) (fun hP => absurd hP.2.2.2.2.2 (by omega))
    · refine iff_of_true rfl ⟨by omega, by omega, by simpa using h3, ?_, ?_, by omega⟩
      · exact fun hm => h4 (by simp; exact Or.inl hm)
      · exact fun hm => h4 (by simp; exact Or.inr hm)

/-- The dedup loop emits a sublist of its input (turns are dropped whole,
never merged). -/
theorem dedupGo_sublist (skip : Turn → Bool) (key : Turn → List Char) (ts : List Turn) :
    ∀ seen, List.Sublist (dedupGo skip key seen ts) ts := by
  induction ts with
  | nil => intro seen; simp [dedupGo]
  | cons t ts ih =>
    intro seen
    rw [dedupGo]
    split_ifs with h1 h2
    · exact List.Sublist.cons t (ih seen)
    · exact List.Sublist.cons t (ih seen)
    · exact List.Sublist.cons₂ t (ih (key t :: seen))

/-- Keys of the dedup loop's output avoid the incoming seen-set and are
pairwise distinct: a later turn with an already-emitted key is dropped. -/
theorem dedupGo_keys (skip : Turn → Bool) (key : Turn → List Char) (ts : List Turn) :
    ∀ seen, (∀ t ∈ dedupGo skip key seen ts, key t ∉ seen) ∧
      List.Pairwise (fun a b => key a ≠ key b) (dedupGo skip key seen ts) := by
  induction ts with
  | nil => intro seen; simp [dedupGo]
  | cons t ts ih =>
    intro seen
    rw [dedupGo]
    split_ifs with h1 h2
    · exact ih seen
    · exact ih seen
    · obtain ⟨ihmem, ihpw⟩ := ih (key t :: seen)
      constructor
      · intro u hu
        rcases List.mem_cons.mp hu with hu | hu
        · subst hu; exact h2
        · have := ihmem u hu
          exact fun hs => this (List.mem_cons_of_mem _ hs)
      · refine List.Pairwise.cons (fun u hu => ?_) ihpw
        have := ihmem u hu
        intro hequ
        exact this (by rw [← hequ]; exact List.mem_cons_self _ _)

/-- C5 (counterexample): two turns with identical converted content `"same"`
(hence identical converted-content fingerprints) but different raw text
survive the HTML assembler together — the HTML exporter hashes the
element's trimmed `textContent`, not the converted content, so the claim's
"any later turn whose fingerprint equals an earlier surviving turn's
fingerprint is dropped" fails for it. -/
theorem c5_html_hash_not_converted_content :
    fingerprint demoTurnA.content = fingerprint demoTurnB.content ∧
      assembleHtml [demoTurnA, demoTurnB] = [demoTurnA, demoTurnB] := by
  refine ⟨by decide, by decide⟩

/-- C5 (amended): both markdown assemblers fingerprint the converted
content (collapsed+trimmed first 100 characters) and the HTML assembler
fingerprints the trimmed raw text the same way; in each, a later turn whose
fingerprint was already emitted is dropped entirely — the output is a
sublist of the input with pairwise-distinct fingerprints. -/
theorem c5_dedup_by_fingerprint :
    (∀ turns : List Turn,
      List.Pairwise (fun a b => fingerprint a.content ≠ fingerprint b.content)
        (assembleMd turns) ∧ List.Sublist (assembleMd turns) turns) ∧
    (∀ turns : List Turn,
      List.Pairwise (fun a b => fingerprint (jsTrim a.text) ≠ fingerprint (jsTrim b.text))
        (assembleHtml turns) ∧ List.Sublist (assembleHtml turns) turns) := by
  constructor
  · intro turns
    exact ⟨(dedupGo_keys _ _ turns []).2, dedupGo_sublist _ _ turns []⟩
  · intro turns
    exact ⟨(dedupGo_keys _ _ turns []).2, dedupGo_sublist _ _ turns []⟩

/-- One iteration of the correction loop: the emitted head differs from
`prev` at most in its sender, the carried current message differs from `cur`
at most in its sender, reliability flags are never written, and when either
side is reliable the iteration changes nothing at all. -/
theorem correctGo_cons_shape (prev cur : Msg) (rs : List Msg) :
    ∃ p' c', correctGo prev (cur :: rs) = p' :: correctGo c' rs ∧
      p'.reliable = prev.reliable ∧ c'.reliable = cur.reliable ∧
      (prev.reliable = true ∨ cur.reliable = true → p' = prev ∧ c' = cur) := by
  simp only [correctGo]
  split_ifs with h1 h2 h3 h4 <;>
    refine ⟨_, _, rfl, rfl, rfl, fun h => ?_⟩ <;>
    first
      | exact ⟨rfl, rfl⟩
      | exact absurd (by rcases h with h | h <;> simp [h]) h1

/-- Any message carrying `reliable = true` passes through the correction
loop untouched (position and all fields preserved). -/
theorem correctGo_preserves_reliable (rs : List Msg) :
    ∀ (prev : Msg) (i : Nat) (m : Msg), (prev :: rs)[i]? = some m → m.reliable = true →
      (correctGo prev rs)[i]? = some m := by
  induction rs with
  | nil =>
    intro prev i m h hm
    cases i with
    | zero => simpa [correctGo] using h
    | succ j => simp at h
  | cons cur rs ih =>
    intro prev i m h hm
    obtain ⟨p', c', heq, hpr, hcr, hid⟩ := correctGo_cons_shape prev cur rs
    rw [heq]
    cases i with
    | zero =>
      simp only [List.getElem?_cons_zero, Option.some.injEq] at h
      have hprel : prev.reliable = true := by rw [h]; exact hm
      have hp : p' = prev := (hid (Or.inl hprel)).1
      simp [hp, h]
    | succ j =>
      simp only [List.getElem?_cons_succ] at h ⊢
      cases j with
      | zero =>
        simp only [List.getElem?_cons_zero, Option.some.injEq] at h
        have hcurrel : cur.reliable = true := by rw [h]; exact hm
        have hc : c' = cur := (hid (Or.inr hcurrel)).2
        exact ih c' 0 m (by simp [hc, h]) hm
      | succ k =>
        simp only [List.getElem?_cons_succ] at h
        exact ih c' (k + 1) m (by simpa using h) hm

/-- C2: the correction pass preserves every reliably attributed message —
if `ms[i]` has `reliable = true` its record (speaker included) is unchanged
at position `i` of the output — and a pair in which either side is reliable
is skipped by its loop iteration, which emits the pair's first message
unchanged and proceeds (the `reliable || reliable → continue` guard of the
async exporter's loop). -/
theorem c2_reliable_preserved :
    (∀ (ms : List Msg) (i : Nat) (m : Msg), ms[i]? = some m → m.reliable = true →
      (correctionPass ms)[i]? = some m) ∧
    (∀ (prev cur : Msg) (rest : List Msg), (cur.reliable || prev.reliable) = true →
      correctGo prev (cur :: rest) = prev :: correctGo cur rest) := by
  constructor
  · intro ms i m h hm
    cases ms with
    | nil => simp at h
    | cons m0 rest => exact correctGo_preserves_reliable rest m0 i m h hm
  · intro prev cur rest h
    rw [correctGo, if_pos h]

/-- C2 (witness): a reliable `'ChatGPT'` turn followed by an unreliable
turn with the same speaker; the pass leaves position 0 unchanged. -/
theorem c2_reliable_preserved_witness :
    ([ ⟨gptName, true, "hello".toList⟩, ⟨gptName, false, "x".toList⟩ ] : List Msg)[0]? =
        some ⟨gptName, true, "hello".toList⟩ ∧
      (⟨gptName, true, "hello".toList⟩ : Msg).reliable = true ∧
      (correctionPass [ ⟨gptName, true, "hello".toList⟩, ⟨gptName, false, "x".toList⟩ ])[0]? =
        some ⟨gptName, true, "hello".toList⟩ :=
  ⟨by decide, by decide, c2_reliable_preserved.1 _ 0 _ (by decide) (by decide)⟩

/-- A message whose sender is already `'ChatGPT'` heads the output of its
loop suffix unchanged: the only write a later iteration can make to it is
`sender = 'ChatGPT'`, a no-op here. -/
theorem correctGo_head_gpt (rest : List Msg) (c : Msg) (hs : c.sender = gptName) :
    ∃ t, correctGo c rest = c :: t := by
  have heta : { c with sender := gptName } = c := by
    cases c; simp_all
  cases rest with
  | nil => exact ⟨[], rfl⟩
  | cons x xs =>
    simp only [correctGo]
    split_ifs with h1 h2 h3 h4 <;>
      first
        | exact ⟨_, rfl⟩
        | exact ⟨_, by rw [heta]⟩

/-- C10: on an adjacent pair of unreliable `'ChatGPT'` messages where the
later content is more than twice as long as the earlier and longer than 500,
the loop takes the `current.sender = 'ChatGPT'` branch — a no-op — so both
messages survive the pass unchanged and adjacent, still both `'ChatGPT'`:
the pass does not enforce alternation. -/
theorem c10_long_gpt_pair_unchanged (prev cur : Msg) (rest : List Msg)
    (hpr : prev.reliable = false) (hcr : cur.reliable = false)
    (hps : prev.sender = gptName) (hcs : cur.sender = gptName)
    (hlen1 : cur.content.length > prev.content.length * 2)
    (hlen2 : cur.content.length > 500) :
    (correctionPass (prev :: cur :: rest)).take 2 = [prev, cur] := by
  have heta : { cur with sender := gptName } = cur := by
    cases cur; simp_all
  have hrel : ¬ ((cur.reliable || prev.reliable) = true) := by simp [hcr, hpr]
  have hsame : cur.sender = prev.sender := by rw [hcs, hps]
  show (correctGo prev (cur :: rest)).take 2 = [prev, cur]
  rw [correctGo, if_neg hrel, if_pos hsame, if_pos ⟨hlen1, hlen2⟩, heta]
  obtain ⟨t, ht⟩ := correctGo_head_gpt rest cur hcs
  rw [ht]
  rfl

/-- C10 (witness): the theorem at a concrete pair (contents of lengths 100
and 501), with an empty remainder. -/
theorem c10_long_gpt_pair_unchanged_witness :
    ((⟨gptName, false, List.replicate 100 'a'⟩ : Msg).reliable = false ∧
      (⟨gptName, false, List.replicate 501 'b'⟩ : Msg).reliable = false ∧
      (List.replicate 501 'b').length > (List.replicate 100 'a').length * 2 ∧
      (List.replicate 501 'b').length > 500) ∧
    (correctionPass [ ⟨gptName, false, List.replicate 100 'a'⟩,
        ⟨gptName, false, List.replicate 501 'b'⟩ ]).take 2 =
      [ ⟨gptName, false, List.replicate 100 'a'⟩, ⟨gptName, false, List.replicate 501 'b'⟩ ] :=
  ⟨⟨rfl, rfl, by rw [List.length_replicate, List.length_replicate]; norm_num,
      by rw [List.length_replicate]; norm_num⟩,
    c10_long_gpt_pair_unchanged _ _ [] rfl rfl rfl rfl
      (by rw [List.length_replicate, List.length_replicate]; norm_num)
      (by rw [List.length_replicate]; norm_num)⟩

/-- C8: the image embedder resolves to `null` on every failure path and
never throws: a `favicon`/`avatar` source yields `null` for every canvas
environment and load outcome (so no load is even consulted); a zero
rasterized dimension yields `null`; a draw/encode exception is caught to
`null`; and for a non-local source, both a load error and the elapse of the
timeout ceiling before the load yield `null`.  (The 5-second real-time
ceiling is abstracted as the `LoadOutcome.timedOut` race outcome.) -/
theorem c8_image_embed_null_on_failure :
    (∀ (env : CanvasEnv) (load : LoadOutcome) (img : ImgElement),
      (containsSub ( "favicon".toList) img.src || containsSub ( "avatar".toList) img.src) = true →
      imageToBase64 env load img = none) ∧
    (∀ (env : CanvasEnv) (img : ImgElement),
      ((if img.naturalWidth ≠ 0 then img.naturalWidth else img.width) = 0 ∨
        (if img.naturalHeight ≠ 0 then img.naturalHeight else img.height) = 0) →
      drawImageToBase64 env img = none) ∧
    (∀ (env : CanvasEnv) (img : ImgElement), env.drawThrows img = true →
      drawImageToBase64 env img = none) ∧
    (∀ (env : CanvasEnv) (img : ImgElement),
      (containsSub ( "favicon".toList) img.src || containsSub ( "avatar".toList) img.src) = false →
      (startsWith ( "blob:".toList) img.src || img.complete) = false →
      imageToBase64 env .errored img = none) ∧
    (∀ (env : CanvasEnv) (img : ImgElement),
      (containsSub ( "favicon".toList) img.src || containsSub ( "avatar".toList) img.src) = false →
      (startsWith ( "blob:".toList) img.src || img.complete) = false →
      imageToBase64 env .timedOut img = none) := by
  refine ⟨?_, ?_, ?_, ?_, ?_⟩
  · intro env load img h
    simp only [imageToBase64]
    rw [if_pos h]
  · intro env img h
    simp only [drawImageToBase64]
    rw [if_pos h]
  · intro env img h
    simp only [drawImageToBase64]
    split_ifs <;> rfl
  · intro env img h1 h2
    have h1' : ¬ ((containsSub ( "favicon".toList) img.src ||
        containsSub ( "avatar".toList) img.src) = true) := by rw [h1]; simp
    have h2' : ¬ ((startsWith ( "blob:".toList) img.src || img.complete) = true) := by
      rw [h2]; simp
    simp only [imageToBase64]
    rw [if_neg h1', if_neg h2']
  · intro env img h1 h2
    have h1' : ¬ ((containsSub ( "favicon".toList) img.src ||
        containsSub ( "avatar".toList) img.src) = true) := by rw [h1]; simp
    have h2' : ¬ ((startsWith ( "blob:".toList) img.src || img.complete) = true) := by
      rw [h2]; simp
    simp only [imageToBase64]
    rw [if_neg h1', if_neg h2']

/-- C8 (witness): the null contract at concrete inputs — a favicon source
with a pending load, and a non-local source whose load times out. -/
theorem c8_image_embed_null_witness :
    ((containsSub ( "favicon".toList) ( "https://x/favicon.ico".toList) ||
        containsSub ( "avatar".toList) ( "https://x/favicon.ico".toList)) = true ∧
      imageToBase64 ⟨fun _ => false, fun _ => []⟩ LoadOutcome.timedOut
        ⟨ "https://x/favicon.ico".toList, false, 10, 10, 0, 0⟩ = none) ∧
    ((containsSub ( "favicon".toList) ( "https://x/pic.png".toList) ||
        containsSub ( "avatar".toList) ( "https://x/pic.png".toList)) = false ∧
      (startsWith ( "blob:".toList) ( "https://x/pic.png".toList) || false) = false ∧
      imageToBase64 ⟨fun _ => false, fun _ => []⟩ LoadOutcome.timedOut
        ⟨ "https://x/pic.png".toList, false, 10, 10, 0, 0⟩ = none) :=
  ⟨⟨by decide, c8_image_embed_null_on_failure.1 _ _ _ (by decide)⟩,
    ⟨by decide, by decide,
      c8_image_embed_null_on_failure.2.2.2.2 _ _ (by decide) (by decide)⟩⟩

/-- C6 (counterexample): a `button` whose class contains `copy` and which
wraps an image is NOT elided — the `button` branch runs before the
class-name check and converts the wrapped image, so the class-based
suppression does not apply to the `button` tag. -/
theorem c6_button_class_not_suppressed :
    containsSub ( "copy".toList) (classNameOf demoButton) = true ∧
      convertElementToMarkdown none demoButton = ( "\n\n![Image](x.png)\n\n".toList) ∧
      convertElementToMarkdown none demoButton ≠ [] := by
  refine ⟨by decide, by decide, by decide⟩

/-- C6 (amended): the class-based suppression (`copy`, `edit`,
`regenerate`, `citation-pill` as class substrings) elides the element
entirely, and the check runs before the tag `switch` — but after the
`button` image-extraction branch and the `svg`/`script`/`style`/`noscript`
skip, so it applies to every tag other than those five. -/
theorem c6_class_suppression (fuel : Nat) (pt : Option (List Char)) (tag : List Char)
    (attrs : List (List Char × List Char)) (ch : List Node)
    (hbtn : tag ≠ "button".toList)
    (hskip : tag ∉ [ "svg".toList, "script".toList, "style".toList, "noscript".toList ])
    (hcls : (containsSub ( "copy".toList) (getAttrD attrs ( "class".toList) []) ||
        containsSub ( "edit".toList) (getAttrD attrs ( "class".toList) []) ||
        containsSub ( "regenerate".toList) (getAttrD attrs ( "class".toList) []) ||
        containsSub ( "citation-pill".toList) (getAttrD attrs ( "class".toList) [])) = true) :
    convertElF fuel pt (Node.elem tag attrs ch) = [] := by
  cases fuel with
  | zero => rfl
  | succ fuel =>
    simp only [convertElF]
    rw [if_neg hbtn, if_neg hskip, if_pos hcls]

/-- C6 (witness): the amended suppression at a concrete `div` with class
`edit-x`. -/
theorem c6_class_suppression_witness :
    (( "div".toList : List Char) ≠ "button".toList ∧
      ( "div".toList : List Char) ∉
        [ "svg".toList, "script".toList, "style".toList, "noscript".toList ] ∧
      (containsSub ( "copy".toList)
          (getAttrD [( "class".toList, "edit-x".toList)] ( "class".toList) []) ||
        containsSub ( "edit".toList)
          (getAttrD [( "class".toList, "edit-x".toList)] ( "class".toList) []) ||
        containsSub ( "regenerate".toList)
          (getAttrD [( "class".toList, "edit-x".toList)] ( "class".toList) []) ||
        containsSub ( "citation-pill".toList)
          (getAttrD [( "class".toList, "edit-x".toList)] ( "class".toList) [])) = true) ∧
    convertElF 5 none
      (Node.elem ( "div".toList) [( "class".toList, "edit-x".toList)]
        [Node.text ( "zz".toList)]) = [] :=
  ⟨⟨by decide, by decide, by decide⟩,
    c6_class_suppression 5 none _ _ _ (by decide) (by decide) (by decide)⟩

/-- C7 (counterexample): an anchor whose class contains `copy` is elided by
the class check before the `a` rule is ever reached, so a bad-href anchor is
NOT always replaced by the inline conversion of its children: here the
children convert to `"hi"` but the anchor converts to the empty string. -/
theorem c7_suppressed_anchor_not_unwrapped :
    startsWith ( "javascript:".toList)
        (lowerChars (jsTrim (getAttrD
          [( "href".toList, "javascript:alert(1)".toList), ( "class".toList, "copy".toList)]
          ( "href".toList) []))) = true ∧
      convertElementToMarkdown none demoAnchor = [] ∧
      convertElementToMarkdown (some ( "a".toList)) (Node.text ( "hi".toList)) =
        ( "hi".toList) ∧
      ([] : List Char) ≠ ( "hi".toList) := by
  refine ⟨by decide, by decide, by decide, by decide⟩

/-- C7 (amended): for an anchor that is not class-suppressed, a trimmed
href that is empty, starts (lowercased) with `javascript:`, `data:` or
`vbscript:`, or starts with `#`, makes the converter emit exactly the
concatenated conversion of the children (no link syntax); any other href
yields `[text](href)` with backslash and square brackets escaped in the
text (which falls back to the href when the flattened inner text is empty)
and backslash and `)` percent-encoded in the href. -/
theorem c7_anchor_link_sanitization (fuel : Nat) (pt : Option (List Char))
    (attrs : List (List Char × List Char)) (ch : List Node)
    (hcls : (containsSub ( "copy".toList) (getAttrD attrs ( "class".toList) []) ||
        containsSub ( "edit".toList) (getAttrD attrs ( "class".toList) []) ||
        containsSub ( "regenerate".toList) (getAttrD attrs ( "class".toList) []) ||
        containsSub ( "citation-pill".toList) (getAttrD attrs ( "class".toList) [])) = false) :
    ((jsTrim (getAttrD attrs ( "href".toList) []) = [] ∨
        startsWith ( "javascript:".toList)
          (lowerChars (jsTrim (getAttrD attrs ( "href".toList) []))) = true ∨
        startsWith ( "data:".toList)
          (lowerChars (jsTrim (getAttrD attrs ( "href".toList) []))) = true ∨
        startsWith ( "vbscript:".toList)
          (lowerChars (jsTrim (getAttrD attrs ( "href".toList) []))) = true ∨
        startsWith ( "#".toList) (jsTrim (getAttrD attrs ( "href".toList) [])) = true) →
      convertElF (fuel + 1) pt (Node.elem ( "a".toList) attrs ch) =
        processChildNodesF fuel (Node.elem ( "a".toList) attrs ch)) ∧
    (¬ (jsTrim (getAttrD attrs ( "href".toList) []) = [] ∨
        startsWith ( "javascript:".toList)
          (lowerChars (jsTrim (getAttrD attrs ( "href".toList) []))) = true ∨
        startsWith ( "data:".toList)
          (lowerChars (jsTrim (getAttrD attrs ( "href".toList) []))) = true ∨
        startsWith ( "vbscript:".toList)
          (lowerChars (jsTrim (getAttrD attrs ( "href".toList) []))) = true ∨
        startsWith ( "#".toList) (jsTrim (getAttrD attrs ( "href".toList) [])) = true) →
      convertElF (fuel + 1) pt (Node.elem ( "a".toList) attrs ch) =
        [ '[' ] ++ escapeMarkdownText
            (if getTextContentF fuel (Node.elem ( "a".toList) attrs ch) = []
              then jsTrim (getAttrD attrs ( "href".toList) [])
              else getTextContentF fuel (Node.elem ( "a".toList) attrs ch)) ++
          "](".toList ++
          replaceAll ( ")".toList) ( "%29".toList)
            (replaceAll ( "\\".toList) ( "%5C".toList)
              (jsTrim (getAttrD attrs ( "href".toList) []))) ++ [ ')' ]) := by
  have hcls' : ¬ ((containsSub ( "copy".toList) (getAttrD attrs ( "class".toList) []) ||
      containsSub ( "edit".toList) (getAttrD attrs ( "class".toList) []) ||
      containsSub ( "regenerate".toList) (getAttrD attrs ( "class".toList) []) ||
      containsSub ( "citation-pill".toList) (getAttrD attrs ( "class".toList) [])) = true) := by
    rw [hcls]; simp
  constructor
  · intro hbad
    simp only [convertElF, reduceIte]
    rw [if_neg hcls', if_pos hbad]
    rfl
  · intro hbad
    simp only [convertElF, reduceIte]
    rw [if_neg hcls', if_neg hbad]
    rfl

/-- C7 (witness): the sanitization at two concrete anchors — a
`javascript:` href unwrapped to its child text, and an ordinary href
emitted as a Markdown link. -/
theorem c7_anchor_link_sanitization_witness :
    ((containsSub ( "copy".toList)
          (getAttrD [( "href".toList, "javascript:alert(1)".toList)] ( "class".toList) []) ||
        containsSub ( "edit".toList)
          (getAttrD [( "href".toList, "javascript:alert(1)".toList)] ( "class".toList) []) ||
        containsSub ( "regenerate".toList)
          (getAttrD [( "href".toList, "javascript:alert(1)".toList)] ( "class".toList) []) ||
        containsSub ( "citation-pill".toList)
          (getAttrD [( "href".toList, "javascript:alert(1)".toList)] ( "class".toList) [])) =
        false ∧
      startsWith ( "javascript:".toList)
        (lowerChars (jsTrim (getAttrD [( "href".toList, "javascript:alert(1)".toList)]
          ( "href".toList) []))) = true) ∧
    convertElF 4 none
        (Node.elem ( "a".toList) [( "href".toList, "javascript:alert(1)".toList)]
          [Node.text ( "hi".toList)]) =
      processChildNodesF 3
        (Node.elem ( "a".toList) [( "href".toList, "javascript:alert(1)".toList)]
          [Node.text ( "hi".toList)]) ∧
    convertElF 4 none
        (Node.elem ( "a".toList) [( "href".toList, "https://e.com/x".toList)]
          [Node.text ( "hi".toList)]) =
      [ '[' ] ++ escapeMarkdownText
          (if getTextContentF 3 (Node.elem ( "a".toList)
                [( "href".toList, "https://e.com/x".toList)] [Node.text ( "hi".toList)]) = []
            then jsTrim (getAttrD [( "href".toList, "https://e.com/x".toList)]
              ( "href".toList) [])
            else getTextContentF 3 (Node.elem ( "a".toList)
              [( "href".toList, "https://e.com/x".toList)] [Node.text ( "hi".toList)])) ++
        "](".toList ++
        replaceAll ( ")".toList) ( "%29".toList)
          (replaceAll ( "\\".toList) ( "%5C".toList)
            (jsTrim (getAttrD [( "href".toList, "https://e.com/x".toList)]
              ( "href".toList) []))) ++ [ ')' ] :=
  ⟨⟨by decide, by decide⟩,
    (c7_anchor_link_sanitization 3 none _ _ (by decide)).1 (by decide),
    (c7_anchor_link_sanitization 3 none _ _ (by decide)).2 (by decide)⟩

/-- The direct-`li` filter of `convertListToMarkdown` keeps every item
built by `mkListItem`. -/
theorem filter_li_map (texts : List (List Char)) :
    (texts.map mkListItem).filter (fun c => match c with
      | Node.elem t _ _ => t == "li".toList
      | _ => false) = texts.map mkListItem := by
  apply List.filter_eq_self.mpr
  intro a ha
  obtain ⟨t, _, rfl⟩ := List.mem_map.mp ha
  simp [mkListItem]

/-- The item loop on text-only `li`s with an ordered marker produces
exactly the numbered lines, incrementing once per item. -/
theorem listItemsGo_ordered_texts (convEl : Option (List Char) → Node → List Char)
    (convList : Node → Nat → List Char) (indentStr : List Char) (indent : Nat)
    (texts : List (List Char)) :
    ∀ k : Int, (∀ t ∈ texts, jsTrim (nlEachToSpace t) ≠ []) →
      listItemsGo convEl convList true indentStr indent (some k) (texts.map mkListItem) =
        orderedItemLines indentStr k texts := by
  induction texts with
  | nil => intro k _; rfl
  | cons t ts ih =>
    intro k h
    have ht := h t (List.mem_cons_self t ts)
    have hts : ∀ u ∈ ts, jsTrim (nlEachToSpace u) ≠ [] := fun u hu =>
      h u (List.mem_cons_of_mem t hu)
    simp only [List.map_cons, listItemsGo, mkListItem, childrenOf, List.foldl_cons,
      List.foldl_nil, List.nil_append, numToChars, incNum, reduceIte]
    rw [if_neg ht, ih (k + 1) hts]
    simp only [orderedItemLines, List.append_assoc, List.append_nil, List.cons_append,
      List.nil_append, List.singleton_append]
    rfl

/-- The item loop on text-only `li`s with the unordered marker produces
`- ` lines (the counter is still incremented but unused). -/
theorem listItemsGo_unordered_texts (convEl : Option (List Char) → Node → List Char)
    (convList : Node → Nat → List Char) (indentStr : List Char) (indent : Nat)
    (texts : List (List Char)) :
    ∀ num : Option Int, (∀ t ∈ texts, jsTrim (nlEachToSpace t) ≠ []) →
      listItemsGo convEl convList false indentStr indent num (texts.map mkListItem) =
        unorderedItemLines indentStr texts := by
  induction texts with
  | nil => intro num _; rfl
  | cons t ts ih =>
    intro num h
    have ht := h t (List.mem_cons_self t ts)
    have hts : ∀ u ∈ ts, jsTrim (nlEachToSpace u) ≠ [] := fun u hu =>
      h u (List.mem_cons_of_mem t hu)
    simp only [List.map_cons, listItemsGo, mkListItem, childrenOf, List.foldl_cons,
      List.foldl_nil, List.nil_append, reduceIte]
    rw [if_neg ht, ih (incNum num) hts]
    simp only [unorderedItemLines, List.map_cons, List.append_assoc, List.append_nil,
      List.cons_append, List.nil_append, List.singleton_append]
    rfl

/-- C9: the List Converter (a) numbers ordered items from the parsed
`start` attribute, incrementing once per direct item, each line indented
two spaces per nesting level; (b) uses `-` markers for unordered lists; and
(c) for an item with empty inline text and a nested list, emits only the
trailing-trimmed nested block (converted at `indent + 1`) with no parent
bullet line. -/
theorem c9_list_converter :
    (∀ (fuel : Nat) (startAttr : List Char) (k : Int) (indent : Nat)
        (texts : List (List Char)),
      startAttr ≠ [] → parseIntJS startAttr = some k →
      (∀ t ∈ texts, jsTrim (nlEachToSpace t) ≠ []) →
      convertListF (fuel + 1)
          (Node.elem ( "ol".toList) [( "start".toList, startAttr)] (texts.map mkListItem))
          indent =
        [ '\n' ].intercalate (orderedItemLines (List.replicate (2 * indent) ' ') k texts)) ∧
    (∀ (fuel : Nat) (indent : Nat) (texts : List (List Char)),
      (∀ t ∈ texts, jsTrim (nlEachToSpace t) ≠ []) →
      convertListF (fuel + 1) (Node.elem ( "ul".toList) [] (texts.map mkListItem)) indent =
        [ '\n' ].intercalate (unorderedItemLines (List.replicate (2 * indent) ' ') texts)) ∧
    (∀ (fuel : Nat) (indent : Nat) (iattrs : List (List Char × List Char)) (ich : List Node),
      convertListF (fuel + 1)
          (Node.elem ( "ul".toList) []
            [Node.elem ( "li".toList) [] [Node.elem ( "ul".toList) iattrs ich]]) indent =
        trimEnd (convertListF fuel (Node.elem ( "ul".toList) iattrs ich) (indent + 1))) := by
  refine ⟨?_, ?_, ?_⟩
  · intro fuel startAttr k indent texts hne hk htext
    simp only [convertListF]
    rw [show (( "ol".toList : List Char) == "ol".toList) = true from by decide,
      filter_li_map,
      show getAttrD [( "start".toList, startAttr)] ( "start".toList) ( "1".toList) =
        startAttr from by simp [getAttrD, getAttr, hne],
      hk, listItemsGo_ordered_texts _ _ _ _ _ k htext]
  · intro fuel indent texts htext
    simp only [convertListF]
    rw [show (( "ul".toList : List Char) == "ol".toList) = false from by decide,
      filter_li_map,
      show parseIntJS (getAttrD [] ( "start".toList) ( "1".toList)) = some 1 from by decide,
      listItemsGo_unordered_texts _ _ _ _ _ (some 1) htext]
  · intro fuel indent iattrs ich
    simp only [convertListF, List.filter_cons, List.filter_nil, listItemsGo, childrenOf,
      List.foldl_cons, List.foldl_nil, List.nil_append, reduceIte, true_or, if_true]
    by_cases hn : convertListF fuel (Node.elem ( "ul".toList) iattrs ich) (indent + 1) = []
    · rw [if_pos hn, hn]
      rfl
    · rw [if_neg hn]
      simp [List.intercalate, List.intersperse]

/-- C9 (witness): the ordered-list clause at `start="3"` with items `a`,
`b` (markers `3.` and `4.`), plus the full-fuel wrapper evaluated on the
same list. -/
theorem c9_list_converter_witness :
    (( "3".toList : List Char) ≠ [] ∧ parseIntJS ( "3".toList) = some 3 ∧
      (∀ t ∈ [ "a".toList, "b".toList ], jsTrim (nlEachToSpace t) ≠ [])) ∧
    convertListF 2
        (Node.elem ( "ol".toList) [( "start".toList, "3".toList)]
          ([ "a".toList, "b".toList ].map mkListItem)) 0 =
      [ '\n' ].intercalate (orderedItemLines (List.replicate (2 * 0) ' ') 3
        [ "a".toList, "b".toList ]) ∧
    convertListToMarkdown demoOl 0 = ( "3. a\n4. b".toList) :=
  ⟨⟨by decide, by decide, by decide⟩,
    c9_list_converter.1 1 ( "3".toList) 3 0 [ "a".toList, "b".toList ]
      (by decide) (by decide) (by decide),
    by decide⟩
